import Mathlib

/-!
# Verification of the Alt-Text generator pipeline

A shallow embedding of the repository's processing pipeline: the Asset
Cropper (`cropImage`), the Annotation Client's page-analysis response
validation (`generatePageAnalysis`), the Result Store edit model
(`handleItemChange` / `handleCancelEdit` / `handleSaveItem`), the
Processing Orchestrator's upload runs (`handleUploadsPdf`,
`handleUploadsSnippets`, `handleUploadUrl`) and regeneration
(`handleRegenerate`), together with the session token accounting
(`decrementTokens`).

Modelling conventions:
* JavaScript numbers used as pixel coordinates and token counts are
  modelled as `Int`; `confidence` (a JSON number in `[0,1]`) as `Rat`.
* Raster images are opaque: an `Image` is its pixel dimensions plus an
  opaque payload string; `cropImage` computes the output dimensions
  exactly as the source does and carries the payload through.
* The remote oracle (Gemini) is opaque and fallible: each call site takes
  an `OracleOutcome` input describing how that call resolved.
* React state (`useState` fields, and the authenticated user's token
  balance from the auth context) is modelled as an explicit `ToolState`
  record threaded sequentially through each handler, matching the
  single-threaded, strictly sequential run structure of the source.
  One caveat of the source is modelled explicitly: an in-flight
  `handleUploads` run keeps the `user` and `decrementTokens` closures
  captured when it started, so within a run every token check reads the
  run-start balance and every charge recomputes from it (the loops below
  carry that captured balance as a separate `userTokens` argument).
* Item ids (`Date.now()-Math.random()` in the source) are modelled as
  opaque strings supplied deterministically from page/element indices.
-/

namespace AltText

/-- Pixel bounding box, from `types.ts` (`boundingBox` of `IdentifiedItem`). -/
structure BoundingBox where
  x : Int
  y : Int
  width : Int
  height : Int
deriving Repr, DecidableEq

/-- A raster image: its pixel dimensions plus an opaque payload
(the base64 data of the source, whose pixel content is abstracted). -/
structure Image where
  width : Int
  height : Int
  data : String
deriving Repr, DecidableEq

/-- The fixed safety margin of the Asset Cropper
(`const buffer = 5` in `cropImage`). -/
def buffer : Int := 5

/-- The Asset Cropper, from `cropImage` in the top-level controller:
clamps the crop origin at 0, limits the crop extent to the source image,
and rejects a clamped region of non-positive width or height with the
`"Invalid crop dimensions"` error.  The drawn pixel content is abstracted;
the output dimensions are computed exactly as in the source
(`canvas.width = sWidth`, `canvas.height = sHeight`). -/
def cropImage (img : Image) (box : BoundingBox) : Except String Image :=
  let sx := max 0 (box.x - buffer)
  let sy := max 0 (box.y - buffer)
  let sWidth := min (img.width - sx) (box.width + buffer * 2)
  let sHeight := min (img.height - sy) (box.height + buffer * 2)
  if sWidth ≤ 0 ∨ sHeight ≤ 0 then
    Except.error "Invalid crop dimensions"
  else
    Except.ok { width := sWidth, height := sHeight, data := img.data }

/-! ## JSON values and the page-analysis response validation -/

/-- A parsed JSON value (`JSON.parse` output).  Numbers are modelled as
rationals: every JSON numeric literal denotes a rational. -/
inductive Json where
  | null
  | bool (b : Bool)
  | num (q : Rat)
  | str (s : String)
  | arr (items : List Json)
  | obj (fields : List (String × Json))

/-- JavaScript property access `j[key]`: a present field of an object, and
`undefined` (here `none`) for a missing field or a non-object. -/
def Json.getField : Json → String → Option Json
  | .obj fields, key => (fields.find? (fun kv => kv.1 == key)).map (fun kv => kv.2)
  | _, _ => none

/-- JavaScript truthiness of a parsed JSON value: `null`, `false`, `0` and
`""` are falsy; every object and array is truthy. -/
def Json.truthy : Json → Bool
  | .null => false
  | .bool b => b
  | .num q => q != 0
  | .str s => s != ""
  | .arr _ => true
  | .obj _ => true

/-- Truthiness of `item[key]` (a missing field is `undefined`, falsy). -/
def truthyField (j : Json) (key : String) : Bool :=
  match j.getField key with
  | some v => v.truthy
  | none => false

/-- The JavaScript test `typeof item[key] === 'number'`. -/
def isNumberField (j : Json) (key : String) : Bool :=
  match j.getField key with
  | some (.num _) => true
  | _ => false

/-- The element filter of `generatePageAnalysis`
(`geminiService.ts`, line 97):
`item && item.type && item.altText && item.boundingBox &&
 typeof item.confidence === 'number'`. -/
def keepPageItem (item : Json) : Bool :=
  item.truthy && truthyField item "type" && truthyField item "altText"
    && truthyField item "boundingBox" && isNumberField item "confidence"

/-- How the oracle's HTTP response resolved, as seen by
`generatePageAnalysis`: blank text after trimming, non-empty text that
`JSON.parse` rejects, or a successfully parsed JSON value.  (A transport
failure of the call itself is raised before this point and is modelled at
the orchestrator level as an analysis-call failure.) -/
inductive OracleResponse where
  | empty
  | malformed (raw : String)
  | parsed (j : Json)

/-- The response handling of `generatePageAnalysis` (`geminiService.ts`,
lines 92-108): blank text yields `[]`; a `JSON.parse` failure is caught
and re-thrown as the generic page-analysis API error; a parsed array is
filtered element-wise by `keepPageItem` (the kept raw objects are then
cast, unchanged, to `IdentifiedItem[]`); parsed non-array data yields `[]`
with a console warning. -/
def generatePageAnalysis (resp : OracleResponse) : Except String (List Json) :=
  match resp with
  | .empty => Except.ok []
  | .malformed raw =>
      Except.error ("Failed to generate page analysis. API Error: Unexpected token in JSON: " ++ raw)
  | .parsed j =>
      match j with
      | .arr items => Except.ok (items.filter keepPageItem)
      | _ => Except.ok []

/-! ## Result Store data model (`types.ts`) -/

/-- Snapshot of the four user-editable fields, stored in `originalState`
for the cancel functionality (`types.ts`,
`Omit<IdentifiedItem, 'confidence' | 'boundingBox'>`). -/
structure OriginalState where
  type : String
  altText : String
  keywords : String
  taxonomy : String
deriving Repr, DecidableEq

/-- A validated page-analysis element as consumed by the PDF path: the
five analysis fields plus the bounding box, which the `keepPageItem`
filter guarantees to be present on every element the path receives.
`type` is one of the ten `IdentifiedItemType` literals at creation time
but is stored as a plain string (edits write arbitrary strings). -/
structure PageAsset where
  type : String
  altText : String
  keywords : String
  taxonomy : String
  confidence : Rat
  boundingBox : BoundingBox
deriving Repr, DecidableEq

/-- A validated snippet-analysis result (`generateImageAnalysis` output):
the same analysis fields, with no bounding box (the snippet response
schema omits it). -/
structure SnippetAnalysis where
  type : String
  altText : String
  keywords : String
  taxonomy : String
  confidence : Rat
deriving Repr, DecidableEq

/-- `ProcessedItem` from `types.ts`.  The optional booleans
(`isRegenerating?`, `isEditing?`, `isSaving?`) are modelled as `Bool`
with `undefined = false`. -/
structure ProcessedItem where
  type : String
  altText : String
  keywords : String
  taxonomy : String
  confidence : Rat
  boundingBox : Option BoundingBox
  id : String
  pageNumber : Int
  previewImage : Image
  originalPageImage : Option Image
  isRegenerating : Bool
  tokensSpent : Int
  isEditing : Bool
  isSaving : Bool
  originalState : Option OriginalState
deriving Repr, DecidableEq

/-- The four editable fields accepted by `handleItemChange`
(`keyof Omit<IdentifiedItem, 'confidence' | 'boundingBox'>`). -/
inductive EditField where
  | type
  | altText
  | keywords
  | taxonomy
deriving Repr, DecidableEq

/-- `{ ...item, [field]: value }` for the four editable fields. -/
def setEditField (item : ProcessedItem) (field : EditField) (value : String) : ProcessedItem :=
  match field with
  | .type => { item with type := value }
  | .altText => { item with altText := value }
  | .keywords => { item with keywords := value }
  | .taxonomy => { item with taxonomy := value }

/-- The snapshot taken on the first edit since the last save
(`handleItemChange`, lines 119-121). -/
def snapshotOf (item : ProcessedItem) : OriginalState :=
  { type := item.type, altText := item.altText,
    keywords := item.keywords, taxonomy := item.taxonomy }

/-- Per-item effect of `handleItemChange` on a matching item. -/
def editItemStep (field : EditField) (value : String) (item : ProcessedItem) : ProcessedItem :=
  let originalState := item.originalState.getD (snapshotOf item)
  { setEditField item field value with isEditing := true, originalState := some originalState }

/-- `handleItemChange` (controller lines 115-127): map over the store; on
the matching id, keep (or take) the `originalState` snapshot, apply the
field mutation, and set `isEditing`. -/
def handleItemChange (results : List ProcessedItem) (itemId : String)
    (field : EditField) (value : String) : List ProcessedItem :=
  results.map fun item =>
    if item.id == itemId then editItemStep field value item else item

/-- `handleCancelEdit` (controller lines 129-136): on the matching id,
when editing with a snapshot present, restore the four fields from the
snapshot and clear the edit state. -/
def handleCancelEdit (results : List ProcessedItem) (itemId : String) : List ProcessedItem :=
  results.map fun item =>
    if item.id == itemId && item.isEditing then
      match item.originalState with
      | some os =>
          { item with type := os.type, altText := os.altText, keywords := os.keywords,
                      taxonomy := os.taxonomy, isEditing := false, isSaving := false,
                      originalState := none }
      | none => item
    else item

/-- First phase of `handleSaveItem` (line 139): mark the item saving. -/
def handleSaveItemStart (results : List ProcessedItem) (itemId : String) : List ProcessedItem :=
  results.map fun r => if r.id == itemId then { r with isSaving := true } else r

/-- Second phase of `handleSaveItem` (lines 141-145, after the 300 ms
pause): commit the staged edits by clearing the edit state. -/
def handleSaveItemFinish (results : List ProcessedItem) (itemId : String) : List ProcessedItem :=
  results.map fun r =>
    if r.id == itemId then { r with isEditing := false, isSaving := false, originalState := none }
    else r

/-- `handleSaveItem` (controller lines 138-146), both phases composed. -/
def handleSaveItem (results : List ProcessedItem) (itemId : String) : List ProcessedItem :=
  handleSaveItemFinish (handleSaveItemStart results itemId) itemId

/-! ## Stable sort by page number -/

/-- Insert an item after every element whose `pageNumber` is `≤` its own:
the position a stable sort gives the newest arrival. -/
def insertByPage (x : ProcessedItem) : List ProcessedItem → List ProcessedItem
  | [] => [x]
  | y :: ys => if y.pageNumber ≤ x.pageNumber then y :: insertByPage x ys else x :: y :: ys

/-- `list.sort((a, b) => a.pageNumber - b.pageNumber)`:
`Array.prototype.sort` is stable (ES2019), so it is the stable sort by
`pageNumber`, here as a left fold of stable insertions. -/
def sortByPage (l : List ProcessedItem) : List ProcessedItem :=
  l.foldl (fun acc x => insertByPage x acc) []

/-- One store append of the PDF path
(`setResults(prev => [...prev, newItem].sort((a, b) => a.pageNumber - b.pageNumber))`,
controller line 227). -/
def appendSorted (prev : List ProcessedItem) (newItem : ProcessedItem) : List ProcessedItem :=
  sortByPage (prev ++ [newItem])

/-! ## Orchestrator state, toasts and oracle outcomes -/

/-- Toast severity (`ToastType` in `types.ts`). -/
inductive ToastType where
  | success
  | error
  | info
deriving Repr, DecidableEq

/-- A toast notification; the numeric id of the source is dropped
(only the emitted message/severity stream matters here). -/
structure Toast where
  message : String
  type : ToastType
deriving Repr, DecidableEq

/-- `ProcessingState` from `types.ts`. -/
inductive ProcessingState where
  | IDLE
  | PROCESSING
  | DONE
  | ERROR
deriving Repr, DecidableEq

/-- The tool's mutable state: the `AltTextGeneratorTool` React state
(`processingState`, `results`, `summary`), the emitted toast stream, and
the session user's token balance (`user.tokens` from the auth context),
threaded explicitly.  `progressMessage` (a transient UI string) is
omitted. -/
structure ToolState where
  processingState : ProcessingState
  results : List ProcessedItem
  summary : String
  toasts : List Toast
  tokens : Int
deriving Repr, DecidableEq

/-- `const TOKENS_PER_JOB = 10` (controller line 98). -/
def TOKENS_PER_JOB : Int := 10

/-- `decrementTokens` from `useToast.ts` (lines 107-112):
`Math.max(0, user.tokens - amount)`. -/
def decrementTokens (tokens amount : Int) : Int :=
  max 0 (tokens - amount)

/-- `addToast`: append a toast to the emitted stream. -/
def addToast (st : ToolState) (message : String) (type : ToastType) : ToolState :=
  { st with toasts := st.toasts ++ [{ message := message, type := type }] }

/-- Resolution of one opaque oracle / renderer / reader call: the value it
produced, or the thrown error's message. -/
inductive OracleOutcome (α : Type) where
  | success (value : α)
  | failure (message : String)
deriving Repr, DecidableEq

/-- `explainError` from `geminiService.ts` (lines 184-204): on oracle
success return its text, falling back to the raw error message when that
text is empty (`response.text || errorMessage`; the cosmetic label
replacements are abstracted); on failure of the explain call itself,
return the raw message. -/
def explainError (errorMessage : String) (oracle : OracleOutcome String) : String :=
  match oracle with
  | .success text => if text == "" then errorMessage else text
  | .failure _ => errorMessage

/-- `handleError` (controller lines 107-113): humanize the raw message
via `explainError`, toast it as an error, and set the `ERROR` state. -/
def handleError (st : ToolState) (message : String) (explainOracle : OracleOutcome String) : ToolState :=
  let friendlyError := explainError message explainOracle
  { addToast st friendlyError .error with processingState := .ERROR }

/-- The `summaryList` string of `generateSummary`: per type (in first
occurrence order), `"<count> <type>"` with a plural `s`, comma-joined. -/
def summaryList (items : List ProcessedItem) : String :=
  let types := items.foldl (fun acc it => if acc.contains it.type then acc else acc ++ [it.type]) []
  String.intercalate ", " (types.map fun t =>
    let count := (items.filter (fun it => it.type == t)).length
    toString count ++ " " ++ t ++ (if count > 1 then "s" else ""))

/-- `generateSummary` from `geminiService.ts` (lines 153-181): empty item
list short-circuits to a fixed sentence; otherwise the oracle's text is
returned, degrading to the deterministic templated fallback sentence when
the call fails. -/
def generateSummary (items : List ProcessedItem) (oracle : OracleOutcome String) : String :=
  if items.length == 0 then "No visual elements were identified in the document."
  else
    match oracle with
    | .success text => text
    | .failure _ => "The document contains the following assets: " ++ summaryList items ++ "."

/-- `finishProcessing` (controller lines 178-190): with at least one
produced item, store the summary, toast completion and a low-balance
notice below 50 tokens; with none, toast the nothing-found notice.
Always ends by setting the `DONE` state. -/
def finishProcessing (st : ToolState) (finalResults : List ProcessedItem)
    (summaryOracle : OracleOutcome String) : ToolState :=
  let st :=
    if finalResults.length > 0 then
      let st := { st with summary := generateSummary finalResults summaryOracle }
      let st := addToast st "Processing complete!" .success
      if st.tokens < 50 then addToast st "Your token balance is getting low." .info else st
    else
      addToast st "No visual elements were found to process." .info
  { st with processingState := .DONE }

/-- `handleReset` (controller lines 100-105). -/
def handleReset (st : ToolState) : ToolState :=
  { st with processingState := .IDLE, results := [], summary := "" }

/-- `startProcessing` (controller lines 173-176). -/
def startProcessing (st : ToolState) : ToolState :=
  { handleReset st with processingState := .PROCESSING }

/-! ## The processing runs (`handleUploads`) -/

/-- The `ProcessedItem` built in the PDF loop (controller line 225):
`{ ...item, id, pageNumber: i + 1, previewImage: assetPreview,
   originalPageImage: pageImage, tokensSpent: TOKENS_PER_JOB }`. -/
def mkPageProcessedItem (asset : PageAsset) (id : String) (pageNumber : Int)
    (assetPreview pageImage : Image) : ProcessedItem :=
  { type := asset.type, altText := asset.altText, keywords := asset.keywords,
    taxonomy := asset.taxonomy, confidence := asset.confidence,
    boundingBox := some asset.boundingBox, id := id, pageNumber := pageNumber,
    previewImage := assetPreview, originalPageImage := some pageImage,
    isRegenerating := false, tokensSpent := TOKENS_PER_JOB,
    isEditing := false, isSaving := false, originalState := none }

/-- The inner asset loop of the PDF path (controller lines 223-228):
crop each detected asset of the page; on the first crop failure the
rejection propagates (aborting with the already-appended items kept),
otherwise append the new item to both the local `finalResults` and the
sorted store. -/
def cropPageItems (pageImage : Image) (pageNumber : Int) (idBase : String) :
    List PageAsset → Nat → List ProcessedItem → List ProcessedItem →
    List ProcessedItem × List ProcessedItem × Option String
  | [], _, results, finalResults => (results, finalResults, none)
  | asset :: rest, idx, results, finalResults =>
    match cropImage pageImage asset.boundingBox with
    | .error e => (results, finalResults, some e)
    | .ok assetPreview =>
        let newItem := mkPageProcessedItem asset (idBase ++ "-" ++ toString idx)
          pageNumber assetPreview pageImage
        cropPageItems pageImage pageNumber idBase rest (idx + 1)
          (appendSorted results newItem) (finalResults ++ [newItem])

/-- One rendered page together with how its `generatePageAnalysis` call
resolved (the validated assets it returned, or the thrown message). -/
structure PageInput where
  image : Image
  analysis : OracleOutcome (List PageAsset)

/-- The page loop of the PDF path (controller lines 217-229).
`handleUploads` is a closure capturing `user` (and the auth context's
`decrementTokens`, whose own `user` is from the same render) at the
moment the run starts; the in-flight async run keeps those bindings even
as React state updates.  So every per-page check
`(user?.tokens ?? 0) < TOKENS_PER_JOB` reads the run-start balance
`userTokens`, and every charge stores
`Math.max(0, userTokens - TOKENS_PER_JOB)` into the session — charges do
not accumulate across pages.  `tokens` is the live session balance the
run writes (and returns); on analysis success one charge is recorded,
then every detected asset is cropped and appended; any thrown error
stops the loop with the state reached so far.  Returns
(session balance, store, local `finalResults`, thrown error if any). -/
def runPdfPages (userTokens : Int) :
    List PageInput → Nat → Int → List ProcessedItem → List ProcessedItem →
    Int × List ProcessedItem × List ProcessedItem × Option String
  | [], _, tokens, results, finalResults => (tokens, results, finalResults, none)
  | page :: rest, i, tokens, results, finalResults =>
    if userTokens < TOKENS_PER_JOB then
      (tokens, results, finalResults, some "Processing stopped due to insufficient tokens.")
    else
      match page.analysis with
      | .failure msg => (tokens, results, finalResults, some msg)
      | .success assets =>
          let tokens' := decrementTokens userTokens TOKENS_PER_JOB
          match cropPageItems page.image (Int.ofNat i + 1) ("p" ++ toString (i + 1))
              assets 0 results finalResults with
          | (results', finalResults', some e) => (tokens', results', finalResults', some e)
          | (results', finalResults', none) =>
              runPdfPages userTokens rest (i + 1) tokens' results' finalResults'

/-- The PDF branch of `handleUploads` (controller lines 200-273):
`startProcessing`, render the document (`render` is how
`processPdfToImages` resolved), run the page loop, route any thrown error
through `handleError`, and always run `finishProcessing` in the `finally`
block. -/
def handleUploadsPdf (st0 : ToolState) (render : OracleOutcome (List PageInput))
    (explainOracle summaryOracle : OracleOutcome String) : ToolState :=
  let st := startProcessing st0
  match render with
  | .failure msg => finishProcessing (handleError st msg explainOracle) [] summaryOracle
  | .success pages =>
      match runPdfPages st.tokens pages 0 st.tokens [] [] with
      | (tokens', results', finalResults, none) =>
          finishProcessing { st with tokens := tokens', results := results' }
            finalResults summaryOracle
      | (tokens', results', finalResults, some msg) =>
          finishProcessing
            (handleError { st with tokens := tokens', results := results' } msg explainOracle)
            finalResults summaryOracle

/-- The `ProcessedItem` built by `processAndAddItems` (controller line
195): no bounding box, no original page image, the analyzed image itself
as preview. -/
def mkSnippetProcessedItem (item : SnippetAnalysis) (id : String) (pageNumber : Int)
    (image : Image) : ProcessedItem :=
  { type := item.type, altText := item.altText, keywords := item.keywords,
    taxonomy := item.taxonomy, confidence := item.confidence,
    boundingBox := none, id := id, pageNumber := pageNumber,
    previewImage := image, originalPageImage := none,
    isRegenerating := false, tokensSpent := TOKENS_PER_JOB,
    isEditing := false, isSaving := false, originalState := none }

/-- `processAndAddItems` (controller lines 192-198): run the snippet
analysis (a failure propagates before any mutation), charge one
`TOKENS_PER_JOB`, and append the new item to the store without
re-sorting. -/
def processAndAddItems (tokens : Int) (results : List ProcessedItem)
    (analysis : OracleOutcome SnippetAnalysis) (image : Image) (pageNum : Int)
    (id : String) : Except String (Int × List ProcessedItem × ProcessedItem) :=
  match analysis with
  | .failure msg => Except.error msg
  | .success item =>
      let tokens' := decrementTokens tokens TOKENS_PER_JOB
      let newItem := mkSnippetProcessedItem item id pageNum image
      Except.ok (tokens', results ++ [newItem], newItem)

/-- One DOCX element or raw image file together with how its
`generateImageAnalysis` call resolved. -/
structure SnippetInput where
  image : Image
  analysis : OracleOutcome SnippetAnalysis

/-- The DOCX-element / image-file loop (controller lines 234-240 and
245-257): check the balance before each element, then
`processAndAddItems` with `pageNum = i + 1`.  As in `runPdfPages`, the
run's closure captures `user` and `decrementTokens` at run start, so
every check reads the run-start balance `userTokens` and every charge
(inside `processAndAddItems`) computes from `userTokens`, not from the
live session balance. -/
def runSnippetInputs (userTokens : Int) :
    List SnippetInput → Nat → Int → List ProcessedItem → List ProcessedItem →
    Int × List ProcessedItem × List ProcessedItem × Option String
  | [], _, tokens, results, finalResults => (tokens, results, finalResults, none)
  | inp :: rest, i, tokens, results, finalResults =>
    if userTokens < TOKENS_PER_JOB then
      (tokens, results, finalResults, some "Processing stopped due to insufficient tokens.")
    else
      match processAndAddItems userTokens results inp.analysis inp.image (Int.ofNat i + 1)
          ("s" ++ toString (i + 1)) with
      | .error msg => (tokens, results, finalResults, some msg)
      | .ok (tokens', results', newItem) =>
          runSnippetInputs userTokens rest (i + 1) tokens' results' (finalResults ++ [newItem])

/-- The DOCX / multiple-images branch of `handleUploads`: extraction of
the element list is opaque (`extract` is how `processDocxToImages` or the
`FileReader` reads resolved), then the snippet loop, with the same
catch/finally structure as the PDF branch. -/
def handleUploadsSnippets (st0 : ToolState) (extract : OracleOutcome (List SnippetInput))
    (explainOracle summaryOracle : OracleOutcome String) : ToolState :=
  let st := startProcessing st0
  match extract with
  | .failure msg => finishProcessing (handleError st msg explainOracle) [] summaryOracle
  | .success inputs =>
      match runSnippetInputs st.tokens inputs 0 st.tokens [] [] with
      | (tokens', results', finalResults, none) =>
          finishProcessing { st with tokens := tokens', results := results' }
            finalResults summaryOracle
      | (tokens', results', finalResults, some msg) =>
          finishProcessing
            (handleError { st with tokens := tokens', results := results' } msg explainOracle)
            finalResults summaryOracle

/-- The URL branch of `handleUploads` (controller lines 261-267): its own
insufficient-tokens check with a distinct message, an opaque
`fetchImageAsBase64`, then a single `processAndAddItems` with page 1. -/
def handleUploadUrl (st0 : ToolState) (fetch : OracleOutcome Image)
    (analysis : OracleOutcome SnippetAnalysis)
    (explainOracle summaryOracle : OracleOutcome String) : ToolState :=
  let st := startProcessing st0
  if st.tokens < TOKENS_PER_JOB then
    finishProcessing
      (handleError st ("Insufficient tokens. You need " ++ toString TOKENS_PER_JOB ++ " tokens.")
        explainOracle) [] summaryOracle
  else
    match fetch with
    | .failure msg => finishProcessing (handleError st msg explainOracle) [] summaryOracle
    | .success img =>
        match processAndAddItems st.tokens st.results analysis img 1 "u1" with
        | .error msg => finishProcessing (handleError st msg explainOracle) [] summaryOracle
        | .ok (tokens', results', newItem) =>
            finishProcessing { st with tokens := tokens', results := results' }
              [newItem] summaryOracle

/-! ## Regeneration -/

/-- Image selection of `handleRegenerate` (lines 157-159): re-crop the
original page image by the stored bounding box when both are present,
else reuse the existing preview. -/
def regenImage (item : ProcessedItem) : Except String Image :=
  match item.originalPageImage, item.boundingBox with
  | some pageImg, some box => cropImage pageImg box
  | _, _ => Except.ok item.previewImage

/-- The successful-regeneration item update (controller lines 162-164):
`{ ...r, ...analysis, isRegenerating: false,
   tokensSpent: r.tokensSpent + TOKENS_PER_JOB, isEditing: false,
   originalState: undefined }` — the snippet analysis carries no
`boundingBox` key, so the spread leaves the stored box intact. -/
def setRegenFields (r : ProcessedItem) (a : SnippetAnalysis) : ProcessedItem :=
  { r with type := a.type, altText := a.altText, keywords := a.keywords,
           taxonomy := a.taxonomy, confidence := a.confidence,
           isRegenerating := false, tokensSpent := r.tokensSpent + TOKENS_PER_JOB,
           isEditing := false, originalState := none }

/-- `handleRegenerate` (controller lines 148-171).  Returns the new state
together with the number of `generateImageAnalysis` calls issued (0 or
1).  Paths: unknown id → no-op; balance below cost → refusal toast;
otherwise flag the item regenerating, pick the image (a crop rejection
takes the catch path), run the analysis (failure takes the catch path:
`handleError` then reset the flag), and on success charge the session,
replace the analysis fields and toast, with the low-balance notice
computed from the pre-charge balance (`user.tokens - TOKENS_PER_JOB`). -/
def handleRegenerate (st : ToolState) (itemId : String)
    (analysis : OracleOutcome SnippetAnalysis) (explainOracle : OracleOutcome String) :
    ToolState × Nat :=
  match st.results.find? (fun r => r.id == itemId) with
  | none => (st, 0)
  | some itemToRegen =>
    if st.tokens < TOKENS_PER_JOB then
      (addToast st ("You need at least " ++ toString TOKENS_PER_JOB ++ " tokens.") .error, 0)
    else
      let st1 := { st with
        results := st.results.map fun r =>
          if r.id == itemId then { r with isRegenerating := true } else r }
      match regenImage itemToRegen with
      | .error e =>
          let st2 := handleError st1 e explainOracle
          ({ st2 with results := st2.results.map fun r =>
              if r.id == itemId then { r with isRegenerating := false } else r }, 0)
      | .ok _ =>
          match analysis with
          | .failure msg =>
              let st2 := handleError st1 msg explainOracle
              ({ st2 with results := st2.results.map fun r =>
                  if r.id == itemId then { r with isRegenerating := false } else r }, 1)
          | .success a =>
              let st2 := { st1 with
                tokens := decrementTokens st1.tokens TOKENS_PER_JOB,
                results := st1.results.map fun r =>
                  if r.id == itemId then setRegenFields r a else r }
              let st3 := addToast st2 "Analysis regenerated!" .success
              let st4 :=
                if st.tokens - TOKENS_PER_JOB < 50 then
                  addToast st3 "Your token balance is getting low." .info
                else st3
              (st4, 1)

/-- The regeneration entry point as exposed by `ResultCard`
(`ResultsDisplay.tsx`, lines 117-133): while the item is being edited the
Save/Cancel pair replaces the Regenerate control, and the Regenerate
control carries `disabled = item.isRegenerating` — a disabled control
fires no click, so `handleRegenerate` is only reached when the item is
neither editing nor already regenerating. -/
def regenerateClick (st : ToolState) (itemId : String)
    (analysis : OracleOutcome SnippetAnalysis) (explainOracle : OracleOutcome String) :
    ToolState × Nat :=
  match st.results.find? (fun r => r.id == itemId) with
  | none => (st, 0)
  | some item =>
    if item.isEditing then (st, 0)
    else if item.isRegenerating then (st, 0)
    else handleRegenerate st itemId analysis explainOracle

/-! ## Concrete sample inputs -/

/-- A 200×300 rendered page. -/
def demoImage : Image := { width := 200, height := 300, data := "page" }

/-- A well-formed bounding box fully inside `demoImage`. -/
def goodBox : BoundingBox := { x := 10, y := 10, width := 100, height := 50 }

/-- A degenerate bounding box: negative width and height. -/
def badBox : BoundingBox := { x := 10, y := 10, width := -20, height := -20 }

/-- A valid detected asset. -/
def goodAsset : PageAsset :=
  { type := "Table", altText := "a data table", keywords := "rows, columns",
    taxonomy := "Science > Data", confidence := 9/10, boundingBox := goodBox }

/-- A detected asset carrying the degenerate box. -/
def badAsset : PageAsset :=
  { type := "Photograph", altText := "a photo", keywords := "k",
    taxonomy := "T > U", confidence := 1/2, boundingBox := badBox }

/-- The idle tool state of a session holding 100 tokens. -/
def st100 : ToolState :=
  { processingState := .IDLE, results := [], summary := "", toasts := [], tokens := 100 }

/-! ## Theorems -/

/-- C6: for every bounding box fully inside the source image (positive
dimensions, origin and extent within bounds), the Asset Cropper succeeds,
and its output dimensions equal the box dimensions plus twice the fixed
5-pixel margin, clamped so that the crop region (starting at the clamped
origin) does not exceed the source image bounds on any side: each output
dimension is at most box + 2·margin, the region stays inside the image,
and each dimension is either exactly box + 2·margin or hits the image
boundary. -/
theorem crop_output_dims_fully_inside (img : Image) (box : BoundingBox)
    (hx : 0 ≤ box.x) (hy : 0 ≤ box.y)
    (hw : 0 < box.width) (hh : 0 < box.height)
    (hxw : box.x + box.width ≤ img.width) (hyh : box.y + box.height ≤ img.height) :
    ∃ out : Image,
      cropImage img box = .ok out ∧
      out.width ≤ box.width + 2 * buffer ∧
      out.height ≤ box.height + 2 * buffer ∧
      max 0 (box.x - buffer) + out.width ≤ img.width ∧
      max 0 (box.y - buffer) + out.height ≤ img.height ∧
      (out.width = box.width + 2 * buffer ∨ max 0 (box.x - buffer) + out.width = img.width) ∧
      (out.height = box.height + 2 * buffer ∨ max 0 (box.y - buffer) + out.height = img.height) := by
  have hcond : ¬(min (img.width - max 0 (box.x - buffer)) (box.width + buffer * 2) ≤ 0 ∨
      min (img.height - max 0 (box.y - buffer)) (box.height + buffer * 2) ≤ 0) := by
    simp only [buffer]
    omega
  refine ⟨{ width := min (img.width - max 0 (box.x - buffer)) (box.width + buffer * 2),
            height := min (img.height - max 0 (box.y - buffer)) (box.height + buffer * 2),
            data := img.data }, ?_, ?_, ?_, ?_, ?_, ?_, ?_⟩
  · simp only [cropImage]
    rw [if_neg hcond]
  all_goals simp only [buffer]
  all_goals omega

/-- Witness for `crop_output_dims_fully_inside`: the hypotheses hold of
`goodBox` inside `demoImage`, and the conclusion follows. -/
theorem crop_output_dims_witness :
    ((0 : Int) ≤ goodBox.x ∧ (0 : Int) ≤ goodBox.y ∧
      (0 : Int) < goodBox.width ∧ (0 : Int) < goodBox.height ∧
      goodBox.x + goodBox.width ≤ demoImage.width ∧
      goodBox.y + goodBox.height ≤ demoImage.height) ∧
    (∃ out : Image,
      cropImage demoImage goodBox = .ok out ∧
      out.width ≤ goodBox.width + 2 * buffer ∧
      out.height ≤ goodBox.height + 2 * buffer ∧
      max 0 (goodBox.x - buffer) + out.width ≤ demoImage.width ∧
      max 0 (goodBox.y - buffer) + out.height ≤ demoImage.height ∧
      (out.width = goodBox.width + 2 * buffer ∨
        max 0 (goodBox.x - buffer) + out.width = demoImage.width) ∧
      (out.height = goodBox.height + 2 * buffer ∨
        max 0 (goodBox.y - buffer) + out.height = demoImage.height)) :=
  ⟨⟨by decide, by decide, by decide, by decide, by decide, by decide⟩,
    crop_output_dims_fully_inside demoImage goodBox (by decide) (by decide)
      (by decide) (by decide) (by decide) (by decide)⟩

/-- C3 (amended): for every bounding box whose clamped crop region has
zero or negative width or height, the Asset Cropper fails with the
invalid-crop-geometry error and produces no item for that asset — and,
in the document run's asset loop, this failure aborts the remainder of
the run: the rejection propagates, no further asset of that page is
processed, and the items appended before the failure are kept unchanged
(rather than only that single asset being skipped). -/
theorem crop_degenerate_fails_and_aborts :
    (∀ (img : Image) (box : BoundingBox),
      (min (img.width - max 0 (box.x - buffer)) (box.width + buffer * 2) ≤ 0 ∨
       min (img.height - max 0 (box.y - buffer)) (box.height + buffer * 2) ≤ 0) →
      cropImage img box = .error "Invalid crop dimensions") ∧
    (∀ (pageImage : Image) (pageNumber : Int) (idBase : String) (bad : PageAsset)
      (rest : List PageAsset) (idx : Nat) (results finals : List ProcessedItem) (e : String),
      cropImage pageImage bad.boundingBox = .error e →
      cropPageItems pageImage pageNumber idBase (bad :: rest) idx results finals
        = (results, finals, some e)) := by
  constructor
  · intro img box h
    simp only [cropImage]
    rw [if_pos h]
  · intro pageImage pageNumber idBase bad rest idx results finals e h
    simp only [cropPageItems, h]

/-- Witness for `crop_degenerate_fails_and_aborts`: the degenerate
`badBox` satisfies the non-positivity hypothesis inside `demoImage`, the
cropper rejects it, and the asset loop aborts there with nothing
appended. -/
theorem crop_degenerate_witness :
    (min (demoImage.width - max 0 (badBox.x - buffer)) (badBox.width + buffer * 2) ≤ 0 ∨
      min (demoImage.height - max 0 (badBox.y - buffer)) (badBox.height + buffer * 2) ≤ 0) ∧
    cropImage demoImage badBox = .error "Invalid crop dimensions" ∧
    cropPageItems demoImage 1 "p1" [badAsset, goodAsset] 0 [] []
      = ([], [], some "Invalid crop dimensions") :=
  ⟨by decide,
    crop_degenerate_fails_and_aborts.1 demoImage badBox (by decide),
    crop_degenerate_fails_and_aborts.2 demoImage 1 "p1" badAsset [goodAsset] 0 [] []
      "Invalid crop dimensions" rfl⟩

/-- C3 counterexample: a page whose first detected asset carries a
degenerate box followed by a perfectly valid asset — the claim predicts
only the degenerate asset is skipped and `goodAsset` is still processed,
but the run aborts: the store ends empty (no item for `goodAsset`) and
the run takes the error path. -/
theorem crop_degenerate_run_counterexample :
    (handleUploadsPdf st100 (.success [⟨demoImage, .success [badAsset, goodAsset]⟩])
      (.success "Friendly explanation") (.success "Doc summary")).results = [] ∧
    (handleUploadsPdf st100 (.success [⟨demoImage, .success [badAsset, goodAsset]⟩])
      (.success "Friendly explanation") (.success "Doc summary")).toasts.map Toast.message
      = ["Friendly explanation", "No visual elements were found to process."] :=
  ⟨by decide, by decide⟩

/-- C2, evaluated at a failing input: a 2-page run whose first page
yields one valid asset and whose second page's analysis call fails.  The
human-readable explanation is emitted and the item appended before the
failure is preserved — but the run does **not** end in the `Error`
state: `handleError` sets `ERROR`, and the `finally` block's
`finishProcessing` then unconditionally sets `DONE` (even toasting
`"Processing complete!"`), so the final state is `DONE`. -/
theorem error_run_ends_done_evaluation :
    (handleUploadsPdf st100
      (.success [⟨demoImage, .success [goodAsset]⟩, ⟨demoImage, .failure "API down"⟩])
      (.success "Friendly explanation") (.success "Doc summary")).processingState
        = ProcessingState.DONE ∧
    (handleUploadsPdf st100
      (.success [⟨demoImage, .success [goodAsset]⟩, ⟨demoImage, .failure "API down"⟩])
      (.success "Friendly explanation") (.success "Doc summary")).toasts.map Toast.message
        = ["Friendly explanation", "Processing complete!"] ∧
    (handleUploadsPdf st100
      (.success [⟨demoImage, .success [goodAsset]⟩, ⟨demoImage, .failure "API down"⟩])
      (.success "Friendly explanation") (.success "Doc summary")).results.map
        ProcessedItem.altText = ["a data table"] :=
  ⟨by decide, by decide, by decide⟩

/-- C7 (amended): the page-analysis response validation.  A blank
response yields the empty list; a JSON-parseable non-array yields the
empty list rather than an error; a parsed array is filtered element-wise
with the remaining elements kept in order; and an element is kept
precisely when it is truthy and carries truthy `type`, `altText` and
`boundingBox` fields and a numeric `confidence` — `keywords` and
`taxonomy` are never examined, so an element missing only those fields
is kept, not dropped. -/
theorem page_analysis_validation :
    (generatePageAnalysis .empty = .ok []) ∧
    (∀ raw, ∃ msg, generatePageAnalysis (.malformed raw) = .error msg) ∧
    (∀ j : Json, (∀ items, j ≠ .arr items) → generatePageAnalysis (.parsed j) = .ok []) ∧
    (∀ items, generatePageAnalysis (.parsed (.arr items)) = .ok (items.filter keepPageItem)) ∧
    (∀ item : Json, keepPageItem item = true ↔
      (item.truthy = true ∧ truthyField item "type" = true ∧ truthyField item "altText" = true ∧
       truthyField item "boundingBox" = true ∧ isNumberField item "confidence" = true)) := by
  refine ⟨rfl, fun raw => ⟨_, rfl⟩, ?_, fun items => rfl, ?_⟩
  · intro j h
    cases j with
    | arr items => exact absurd rfl (h items)
    | _ => rfl
  · intro item
    simp [keepPageItem, Bool.and_eq_true, and_assoc]

/-- Witness for `page_analysis_validation`: `null` is not an array, and
the parsed-`null` response yields the empty list. -/
theorem page_analysis_validation_witness :
    (∀ items, Json.null ≠ Json.arr items) ∧
    generatePageAnalysis (.parsed .null) = .ok [] :=
  ⟨fun _ h => Json.noConfusion h,
    page_analysis_validation.2.2.1 Json.null (fun _ h => Json.noConfusion h)⟩

/-- A page-analysis element carrying `type`, `altText`, `boundingBox`
and a numeric `confidence`, but no `keywords` and no `taxonomy` field. -/
def keywordlessItem : Json :=
  Json.obj [("type", .str "Photograph"), ("altText", .str "a photo"),
    ("boundingBox", .obj [("x", .num 1), ("y", .num 1), ("width", .num 5), ("height", .num 5)]),
    ("confidence", .num (9/10))]

/-- C7 counterexample: `keywordlessItem` is missing the required
`keywords` and `taxonomy` fields, yet the validation keeps it — the
claim predicts an element missing any required field is dropped. -/
theorem page_analysis_keywords_counterexample :
    generatePageAnalysis (.parsed (.arr [keywordlessItem])) = .ok [keywordlessItem] ∧
    keywordlessItem.getField "keywords" = none ∧
    keywordlessItem.getField "taxonomy" = none :=
  ⟨rfl, rfl, rfl⟩

/-- A quiescent processed item of the store (id `"i1"`, page 1). -/
def demoItem : ProcessedItem :=
  { type := "Photograph", altText := "alt", keywords := "k1, k2", taxonomy := "A > B",
    confidence := 3/4, boundingBox := none, id := "i1", pageNumber := 1,
    previewImage := { width := 40, height := 40, data := "snippet" },
    originalPageImage := none, isRegenerating := false, tokensSpent := 10,
    isEditing := false, isSaving := false, originalState := none }

/-- An item with a regeneration in flight (id `"r1"`). -/
def regenItem : ProcessedItem := { demoItem with id := "r1", isRegenerating := true }

/-- A session holding the single in-flight-regeneration item. -/
def stRegen : ToolState := { st100 with results := [regenItem] }

/-- A session holding the single quiescent item. -/
def stQuiet : ToolState := { st100 with results := [demoItem] }

/-- A fresh snippet-analysis result, as returned by a regeneration. -/
def demoAnalysis : SnippetAnalysis :=
  { type := "Illustration", altText := "new alt", keywords := "nk",
    taxonomy := "C > D", confidence := 4/5 }

/-- C9: for every item whose `isRegenerating` flag is true, invoking
regeneration on it again through the UI performs no second analysis call
and no second token charge: the Regenerate control carries
`disabled = isRegenerating`, so the click is a no-op — the state
(including the token balance) is unchanged and zero analysis calls are
issued. -/
theorem regen_reentry_gated (st : ToolState) (itemId : String) (item : ProcessedItem)
    (a : OracleOutcome SnippetAnalysis) (e : OracleOutcome String)
    (hfind : st.results.find? (fun r => r.id == itemId) = some item)
    (hreg : item.isRegenerating = true) :
    regenerateClick st itemId a e = (st, 0) := by
  simp only [regenerateClick, hfind]
  cases hedit : item.isEditing <;> simp [hreg]

/-- Witness for `regen_reentry_gated`: re-clicking Regenerate on
`regenItem` (whose flag is set) changes nothing and issues no call. -/
theorem regen_reentry_gated_witness :
    (stRegen.results.find? (fun r => r.id == "r1") = some regenItem ∧
      regenItem.isRegenerating = true) ∧
    regenerateClick stRegen "r1" (.success demoAnalysis) (.success "explained") = (stRegen, 0) :=
  ⟨⟨rfl, rfl⟩,
    regen_reentry_gated stRegen "r1" regenItem (.success demoAnalysis) (.success "explained")
      rfl rfl⟩

/-- C10: when the analysis call issued during a regeneration fails, the
regeneration is atomic in its effects: the session token balance is not
decremented, every item's `tokensSpent`, `type`, `altText`, `keywords`,
`taxonomy` and `confidence` are unchanged (the store is exactly the old
store with the item's `isRegenerating` flag cleared), and the item's
`isRegenerating` flag is reset to false. -/
theorem regen_failure_atomic (st : ToolState) (itemId : String) (item : ProcessedItem)
    (msg : String) (e : OracleOutcome String)
    (hfind : st.results.find? (fun r => r.id == itemId) = some item)
    (htok : ¬ st.tokens < TOKENS_PER_JOB)
    (himg : ∃ img, regenImage item = .ok img) :
    (handleRegenerate st itemId (.failure msg) e).1.tokens = st.tokens ∧
    (handleRegenerate st itemId (.failure msg) e).1.results
      = st.results.map (fun r => if r.id == itemId then { r with isRegenerating := false } else r) ∧
    (handleRegenerate st itemId (.failure msg) e).1.results.map (fun r =>
        (r.tokensSpent, r.type, r.altText, r.keywords, r.taxonomy, r.confidence))
      = st.results.map (fun r =>
        (r.tokensSpent, r.type, r.altText, r.keywords, r.taxonomy, r.confidence)) ∧
    (∀ r ∈ (handleRegenerate st itemId (.failure msg) e).1.results,
      r.id = itemId → r.isRegenerating = false) := by
  obtain ⟨img, himg⟩ := himg
  have h2 : (handleRegenerate st itemId (.failure msg) e).1.results
      = st.results.map (fun r => if r.id == itemId then { r with isRegenerating := false } else r) := by
    simp only [handleRegenerate, hfind, if_neg htok, himg]
    simp only [handleError, addToast]
    rw [List.map_map]
    apply List.map_congr_left
    intro r _
    by_cases h : r.id == itemId
    · simp [Function.comp, h]
    · simp [Function.comp, h]
  refine ⟨?_, h2, ?_, ?_⟩
  · simp only [handleRegenerate, hfind, if_neg htok, himg]
    simp [handleError, addToast]
  · rw [h2, List.map_map]
    apply List.map_congr_left
    intro r _
    by_cases h : r.id == itemId
    · simp [Function.comp, h]
    · simp [Function.comp, h]
  · rw [h2]
    intro r hr hid
    obtain ⟨r₀, hr₀, rfl⟩ := List.mem_map.1 hr
    by_cases h : r₀.id == itemId
    · simp [h]
    · simp only [h, if_neg, Bool.false_eq_true, not_false_iff, ite_false] at hid ⊢
      exact absurd hid (by simpa using h)

/-- Witness for `regen_failure_atomic`: a failed regeneration of the
quiescent item `demoItem` in a 100-token session leaves the balance and
all analysis fields unchanged, with the flag cleared. -/
theorem regen_failure_atomic_witness :
    (stQuiet.results.find? (fun r => r.id == "i1") = some demoItem ∧
      ¬ stQuiet.tokens < TOKENS_PER_JOB ∧ (∃ img, regenImage demoItem = .ok img)) ∧
    ((handleRegenerate stQuiet "i1" (.failure "boom") (.success "explained")).1.tokens
        = stQuiet.tokens ∧
      (handleRegenerate stQuiet "i1" (.failure "boom") (.success "explained")).1.results
        = stQuiet.results.map (fun r =>
            if r.id == "i1" then { r with isRegenerating := false } else r) ∧
      (handleRegenerate stQuiet "i1" (.failure "boom") (.success "explained")).1.results.map
          (fun r => (r.tokensSpent, r.type, r.altText, r.keywords, r.taxonomy, r.confidence))
        = stQuiet.results.map (fun r =>
            (r.tokensSpent, r.type, r.altText, r.keywords, r.taxonomy, r.confidence)) ∧
      (∀ r ∈ (handleRegenerate stQuiet "i1" (.failure "boom") (.success "explained")).1.results,
        r.id = "i1" → r.isRegenerating = false)) :=
  ⟨⟨rfl, by decide, ⟨_, rfl⟩⟩,
    regen_failure_atomic stQuiet "i1" demoItem "boom" (.success "explained")
      rfl (by decide) ⟨_, rfl⟩⟩

/-! ## Edit / Cancel / Save round-trips -/

/-- A sequence of `handleItemChange` calls against one item. -/
def applyEdits (results : List ProcessedItem) (itemId : String)
    (edits : List (EditField × String)) : List ProcessedItem :=
  edits.foldl (fun acc e => handleItemChange acc itemId e.1 e.2) results

/-- The same edit sequence as a per-item fold. -/
def editFold (edits : List (EditField × String)) (it : ProcessedItem) : ProcessedItem :=
  edits.foldl (fun x e => editItemStep e.1 e.2 x) it

/-- The shape of an item while an edit of `it` is in progress: the four
editable fields hold arbitrary draft values, `isEditing` is set, and
`originalState` snapshots `it`. -/
def editedTemplate (it : ProcessedItem) (a b c d : String) : ProcessedItem :=
  { it with type := a, altText := b, keywords := c, taxonomy := d,
            isEditing := true, originalState := some (snapshotOf it) }

/-- `x` is `it` mid-edit. -/
def EditedFrom (it x : ProcessedItem) : Prop :=
  ∃ a b c d, x = editedTemplate it a b c d

/-- Per-item function of `handleCancelEdit`. -/
def cancelStep (itemId : String) (item : ProcessedItem) : ProcessedItem :=
  if item.id == itemId && item.isEditing then
    match item.originalState with
    | some os =>
        { item with type := os.type, altText := os.altText, keywords := os.keywords,
                    taxonomy := os.taxonomy, isEditing := false, isSaving := false,
                    originalState := none }
    | none => item
  else item

theorem editItemStep_id (f : EditField) (v : String) (it : ProcessedItem) :
    (editItemStep f v it).id = it.id := by
  cases f <;> rfl

theorem applyEdits_eq_map (edits : List (EditField × String)) (itemId : String) :
    ∀ results : List ProcessedItem,
      applyEdits results itemId edits
        = results.map (fun it => if it.id == itemId then editFold edits it else it) := by
  induction edits with
  | nil =>
      intro results
      simp [applyEdits, editFold]
  | cons e rest ih =>
      intro results
      have h1 : applyEdits results itemId (e :: rest)
          = applyEdits (handleItemChange results itemId e.1 e.2) itemId rest := rfl
      rw [h1, ih, handleItemChange, List.map_map]
      apply List.map_congr_left
      intro it _
      by_cases h : it.id == itemId
      · simp only [Function.comp, h, if_true, editItemStep_id]
        rfl
      · simp [Function.comp, h]

theorem editItemStep_editedFrom_first (it : ProcessedItem) (h : it.originalState = none)
    (f : EditField) (v : String) : EditedFrom it (editItemStep f v it) := by
  obtain ⟨ty, al, kw, tx, cf, bb, id', pn, pv, op, ir, ts, ie, sv, os⟩ := it
  simp only [ProcessedItem.originalState] at h
  subst h
  cases f
  · exact ⟨v, al, kw, tx, rfl⟩
  · exact ⟨ty, v, kw, tx, rfl⟩
  · exact ⟨ty, al, v, tx, rfl⟩
  · exact ⟨ty, al, kw, v, rfl⟩

theorem editItemStep_editedFrom_step (it x : ProcessedItem) (h : EditedFrom it x)
    (f : EditField) (v : String) : EditedFrom it (editItemStep f v x) := by
  obtain ⟨a, b, c, d, rfl⟩ := h
  cases f
  · exact ⟨v, b, c, d, rfl⟩
  · exact ⟨a, v, c, d, rfl⟩
  · exact ⟨a, b, v, d, rfl⟩
  · exact ⟨a, b, c, v, rfl⟩

theorem editFold_editedFrom (it : ProcessedItem) (h : it.originalState = none)
    (e : EditField × String) (rest : List (EditField × String)) :
    EditedFrom it (editFold (e :: rest) it) := by
  have base : EditedFrom it (editItemStep e.1 e.2 it) :=
    editItemStep_editedFrom_first it h e.1 e.2
  have main : ∀ (l : List (EditField × String)) (x : ProcessedItem), EditedFrom it x →
      EditedFrom it (l.foldl (fun y p => editItemStep p.1 p.2 y) x) := by
    intro l
    induction l with
    | nil => intro x hx; exact hx
    | cons p ps ih =>
        intro x hx
        exact ih _ (editItemStep_editedFrom_step it x hx p.1 p.2)
  exact main rest _ base

theorem handleCancelEdit_eq_map (results : List ProcessedItem) (itemId : String) :
    handleCancelEdit results itemId = results.map (cancelStep itemId) := rfl

theorem cancelStep_restores (itemId : String) (it x : ProcessedItem) (hx : EditedFrom it x)
    (hid : (x.id == itemId) = true)
    (hie : it.isEditing = false) (hsv : it.isSaving = false) (hos : it.originalState = none) :
    cancelStep itemId x = it := by
  obtain ⟨a, b, c, d, rfl⟩ := hx
  obtain ⟨ty, al, kw, tx, cf, bb, id', pn, pv, op, ir, ts, ie, sv, os⟩ := it
  simp only [ProcessedItem.isEditing, ProcessedItem.isSaving, ProcessedItem.originalState]
    at hie hsv hos
  subst hie; subst hsv; subst hos
  simp only [editedTemplate, ProcessedItem.id] at hid
  simp [cancelStep, hid, editedTemplate, snapshotOf]

theorem cancel_noop_of_not_editing (l : List ProcessedItem) (itemId : String)
    (h : ∀ it ∈ l, (it.id == itemId) = true → it.isEditing = false) :
    handleCancelEdit l itemId = l := by
  rw [handleCancelEdit_eq_map]
  calc l.map (cancelStep itemId) = l.map id := by
        apply List.map_congr_left
        intro it hit
        by_cases hid : it.id == itemId
        · simp [cancelStep, hid, h it hit hid]
        · simp [cancelStep, hid]
    _ = l := List.map_id l

theorem save_clears_isEditing (l : List ProcessedItem) (itemId : String) :
    ∀ it ∈ handleSaveItem l itemId, (it.id == itemId) = true → it.isEditing = false := by
  intro it hit hid
  simp only [handleSaveItem, handleSaveItemFinish, handleSaveItemStart, List.map_map] at hit
  obtain ⟨r, hr, rfl⟩ := List.mem_map.1 hit
  by_cases h : r.id == itemId
  · simp [Function.comp, h]
  · simp only [Function.comp, h, if_neg, Bool.false_eq_true, not_false_iff, ite_false] at hid ⊢

/-- C4: for every item of the store and any sequence of edits to it,
Edit…Edit then Cancel restores the entire store exactly — in particular
all four editable fields (`type`, `altText`, `keywords`, `taxonomy`)
return to their values before the first edit since the last save
(the items addressed were quiescent: not editing, with no pending
snapshot); and Edit then Save then Cancel leaves the store unchanged,
because Cancel after Save has nothing to revert and is a no-op. -/
theorem edit_cancel_roundtrip :
    (∀ (results : List ProcessedItem) (itemId : String) (edits : List (EditField × String)),
      (∀ it ∈ results, it.id = itemId →
        it.isEditing = false ∧ it.isSaving = false ∧ it.originalState = none) →
      handleCancelEdit (applyEdits results itemId edits) itemId = results) ∧
    (∀ (results : List ProcessedItem) (itemId : String) (edits : List (EditField × String)),
      handleCancelEdit (handleSaveItem (applyEdits results itemId edits) itemId) itemId
        = handleSaveItem (applyEdits results itemId edits) itemId) := by
  constructor
  · intro results itemId edits hq
    rw [applyEdits_eq_map, handleCancelEdit_eq_map, List.map_map]
    have hpt : ∀ it ∈ results,
        (cancelStep itemId ∘ fun it => if it.id == itemId then editFold edits it else it) it
          = it := by
      intro it hit
      by_cases h : it.id == itemId
      · have hid : it.id = itemId := by simpa using h
        obtain ⟨hie, hsv, hos⟩ := hq it hit hid
        cases edits with
        | nil =>
            simp [Function.comp, h, editFold, cancelStep, hie]
        | cons e rest =>
            have hx : EditedFrom it (editFold (e :: rest) it) := editFold_editedFrom it hos e rest
            have hxid : ((editFold (e :: rest) it).id == itemId) = true := by
              obtain ⟨a, b, c, d, heq⟩ := hx
              rw [heq]
              simpa [editedTemplate] using h
            simp only [Function.comp, h, if_true]
            exact cancelStep_restores itemId it _ hx hxid hie hsv hos
      · simp [Function.comp, h, cancelStep]
    calc results.map
          (cancelStep itemId ∘ fun it => if it.id == itemId then editFold edits it else it)
        = results.map id := List.map_congr_left (by simpa using hpt)
      _ = results := List.map_id results
  · intro results itemId edits
    exact cancel_noop_of_not_editing _ itemId (save_clears_isEditing _ itemId)

/-- Witness for `edit_cancel_roundtrip`: editing `demoItem`'s alt text
and cancelling restores the one-item store exactly; and cancelling after
a save leaves the saved store unchanged. -/
theorem edit_cancel_roundtrip_witness :
    ((∀ it ∈ [demoItem], it.id = "i1" →
        it.isEditing = false ∧ it.isSaving = false ∧ it.originalState = none) ∧
      handleCancelEdit (applyEdits [demoItem] "i1" [(EditField.altText, "changed")]) "i1"
        = [demoItem]) ∧
    handleCancelEdit
        (handleSaveItem (applyEdits [demoItem] "i1" [(EditField.altText, "changed")]) "i1") "i1"
      = handleSaveItem (applyEdits [demoItem] "i1" [(EditField.altText, "changed")]) "i1" :=
  ⟨⟨by decide, edit_cancel_roundtrip.1 [demoItem] "i1" [(EditField.altText, "changed")] (by decide)⟩,
    edit_cancel_roundtrip.2 [demoItem] "i1" [(EditField.altText, "changed")]⟩

/-! ## The originalState/isEditing invariant -/

def StoreInv (l : List ProcessedItem) : Prop :=
  ∀ it ∈ l, it.originalState.isSome = it.isEditing

theorem storeInv_map {l : List ProcessedItem} {f : ProcessedItem → ProcessedItem}
    (hf : ∀ it, it.originalState.isSome = it.isEditing →
      (f it).originalState.isSome = (f it).isEditing)
    (h : StoreInv l) : StoreInv (l.map f) := by
  intro it hit
  obtain ⟨r, hr, rfl⟩ := List.mem_map.1 hit
  exact hf r (h r hr)

theorem storeInv_append {l1 l2 : List ProcessedItem} (h1 : StoreInv l1) (h2 : StoreInv l2) :
    StoreInv (l1 ++ l2) := by
  intro it hit
  rcases List.mem_append.1 hit with h | h
  · exact h1 it h
  · exact h2 it h

theorem mem_insertByPage {x a : ProcessedItem} :
    ∀ {l : List ProcessedItem}, a ∈ insertByPage x l → a = x ∨ a ∈ l := by
  intro l
  induction l with
  | nil => intro h; simpa [insertByPage] using h
  | cons y ys ih =>
      intro h
      simp only [insertByPage] at h
      split at h
      · rcases List.mem_cons.1 h with h | h
        · right; simp [h]
        · rcases ih h with h | h
          · left; exact h
          · right; simp [h]
      · rcases List.mem_cons.1 h with h | h
        · left; exact h
        · right; exact h

theorem mem_sortByPage {a : ProcessedItem} {l : List ProcessedItem}
    (h : a ∈ sortByPage l) : a ∈ l := by
  have aux : ∀ (l acc : List ProcessedItem),
      a ∈ l.foldl (fun acc x => insertByPage x acc) acc → a ∈ acc ∨ a ∈ l := by
    intro l
    induction l with
    | nil => intro acc h; exact Or.inl h
    | cons y ys ih =>
        intro acc h
        rcases ih (insertByPage y acc) h with h | h
        · rcases mem_insertByPage h with h | h
          · right; simp [h]
          · left; exact h
        · right; simp [h]
  rcases aux l [] h with h | h
  · simp at h
  · exact h

theorem storeInv_sortByPage {l : List ProcessedItem} (h : StoreInv l) :
    StoreInv (sortByPage l) :=
  fun it hit => h it (mem_sortByPage hit)

theorem storeInv_cropPageItems (img : Image) (pn : Int) (base : String) :
    ∀ (assets : List PageAsset) (idx : Nat) (res fin : List ProcessedItem), StoreInv res →
      StoreInv (cropPageItems img pn base assets idx res fin).1 := by
  intro assets
  induction assets with
  | nil => intro idx res fin h; exact h
  | cons asset rest ih =>
      intro idx res fin h
      simp only [cropPageItems]
      cases hc : cropImage img asset.boundingBox with
      | error e => exact h
      | ok preview =>
          apply ih
          apply storeInv_sortByPage
          apply storeInv_append h
          intro it hit
          simp only [List.mem_singleton] at hit
          subst hit
          rfl

theorem runPdfPages_cons_insufficient (u : Int) (page : PageInput) (rest : List PageInput)
    (i : Nat) (t : Int) (res fin : List ProcessedItem) (hg : u < TOKENS_PER_JOB) :
    runPdfPages u (page :: rest) i t res fin
      = (t, res, fin, some "Processing stopped due to insufficient tokens.") := by
  simp only [runPdfPages, if_pos hg]

theorem runPdfPages_cons_failure (u : Int) (page : PageInput) (rest : List PageInput)
    (i : Nat) (t : Int) (res fin : List ProcessedItem) (msg : String)
    (hg : ¬ u < TOKENS_PER_JOB) (hpa : page.analysis = .failure msg) :
    runPdfPages u (page :: rest) i t res fin = (t, res, fin, some msg) := by
  simp only [runPdfPages, if_neg hg, hpa]

theorem runPdfPages_cons_success (u : Int) (page : PageInput) (rest : List PageInput)
    (i : Nat) (t : Int) (res fin : List ProcessedItem) (assets : List PageAsset)
    (hg : ¬ u < TOKENS_PER_JOB) (hpa : page.analysis = .success assets) :
    runPdfPages u (page :: rest) i t res fin
      = match cropPageItems page.image (Int.ofNat i + 1) ("p" ++ toString (i + 1))
          assets 0 res fin with
        | (results', finalResults', some e) =>
            (decrementTokens u TOKENS_PER_JOB, results', finalResults', some e)
        | (results', finalResults', none) =>
            runPdfPages u rest (i + 1) (decrementTokens u TOKENS_PER_JOB)
              results' finalResults' := by
  simp only [runPdfPages, if_neg hg, hpa]

theorem storeInv_runPdfPages (u : Int) :
    ∀ (pages : List PageInput) (i : Nat) (t : Int) (res fin : List ProcessedItem), StoreInv res →
      StoreInv (runPdfPages u pages i t res fin).2.1 := by
  intro pages
  induction pages with
  | nil => intro i t res fin h; exact h
  | cons page rest ih =>
      intro i t res fin h
      by_cases hg : u < TOKENS_PER_JOB
      · rw [runPdfPages_cons_insufficient u page rest i t res fin hg]; exact h
      · cases hpa : page.analysis with
        | failure msg =>
            rw [runPdfPages_cons_failure u page rest i t res fin msg hg hpa]; exact h
        | success assets =>
            rw [runPdfPages_cons_success u page rest i t res fin assets hg hpa]
            have hinv := storeInv_cropPageItems page.image (Int.ofNat i + 1)
              ("p" ++ toString (i + 1)) assets 0 res fin h
            rcases hc : cropPageItems page.image (Int.ofNat i + 1) ("p" ++ toString (i + 1))
                assets 0 res fin with ⟨results', finals', err⟩
            rw [hc] at hinv
            cases err with
            | none => exact ih _ _ results' finals' hinv
            | some e => exact hinv

theorem runSnippetInputs_cons_insufficient (u : Int) (inp : SnippetInput)
    (rest : List SnippetInput) (i : Nat) (t : Int) (res fin : List ProcessedItem)
    (hg : u < TOKENS_PER_JOB) :
    runSnippetInputs u (inp :: rest) i t res fin
      = (t, res, fin, some "Processing stopped due to insufficient tokens.") := by
  simp only [runSnippetInputs, if_pos hg]

theorem runSnippetInputs_cons_failure (u : Int) (inp : SnippetInput)
    (rest : List SnippetInput) (i : Nat) (t : Int) (res fin : List ProcessedItem) (msg : String)
    (hg : ¬ u < TOKENS_PER_JOB) (hpa : inp.analysis = .failure msg) :
    runSnippetInputs u (inp :: rest) i t res fin = (t, res, fin, some msg) := by
  simp only [runSnippetInputs, if_neg hg, hpa, processAndAddItems]

theorem runSnippetInputs_cons_success (u : Int) (inp : SnippetInput)
    (rest : List SnippetInput) (i : Nat) (t : Int) (res fin : List ProcessedItem)
    (item : SnippetAnalysis)
    (hg : ¬ u < TOKENS_PER_JOB) (hpa : inp.analysis = .success item) :
    runSnippetInputs u (inp :: rest) i t res fin
      = runSnippetInputs u rest (i + 1) (decrementTokens u TOKENS_PER_JOB)
          (res ++ [mkSnippetProcessedItem item ("s" ++ toString (i + 1)) (Int.ofNat i + 1) inp.image])
          (fin ++ [mkSnippetProcessedItem item ("s" ++ toString (i + 1)) (Int.ofNat i + 1) inp.image]) := by
  simp only [runSnippetInputs, if_neg hg, hpa, processAndAddItems]

theorem storeInv_runSnippetInputs (u : Int) :
    ∀ (inputs : List SnippetInput) (i : Nat) (t : Int) (res fin : List ProcessedItem),
      StoreInv res → StoreInv (runSnippetInputs u inputs i t res fin).2.1 := by
  intro inputs
  induction inputs with
  | nil => intro i t res fin h; exact h
  | cons inp rest ih =>
      intro i t res fin h
      by_cases hg : u < TOKENS_PER_JOB
      · rw [runSnippetInputs_cons_insufficient u inp rest i t res fin hg]; exact h
      · cases hpa : inp.analysis with
        | failure msg =>
            rw [runSnippetInputs_cons_failure u inp rest i t res fin msg hg hpa]; exact h
        | success item =>
            rw [runSnippetInputs_cons_success u inp rest i t res fin item hg hpa]
            apply ih
            apply storeInv_append h
            intro it hit
            simp only [List.mem_singleton] at hit
            subst hit
            rfl

theorem finishProcessing_results (st : ToolState) (fr : List ProcessedItem)
    (s : OracleOutcome String) : (finishProcessing st fr s).results = st.results := by
  simp only [finishProcessing, addToast]
  split
  · split <;> rfl
  · rfl

theorem handleError_results (st : ToolState) (m : String) (e : OracleOutcome String) :
    (handleError st m e).results = st.results := rfl

theorem storeInv_handleUploadsPdf (st : ToolState) (render : OracleOutcome (List PageInput))
    (e s : OracleOutcome String) : StoreInv (handleUploadsPdf st render e s).results := by
  cases render with
  | failure msg =>
      simp only [handleUploadsPdf, finishProcessing_results, handleError_results, startProcessing,
        handleReset]
      intro it hit
      simp at hit
  | success pages =>
      simp only [handleUploadsPdf]
      have hinv := storeInv_runPdfPages (startProcessing st).tokens pages 0
        (startProcessing st).tokens [] [] (by intro it hit; simp at hit)
      rcases hr : runPdfPages (startProcessing st).tokens pages 0 (startProcessing st).tokens [] []
        with ⟨tokens', results', finals', err⟩
      rw [hr] at hinv
      cases err with
      | none => simpa only [finishProcessing_results] using hinv
      | some msg => simpa only [finishProcessing_results, handleError_results] using hinv


theorem storeInv_handleUploadsSnippets (st : ToolState)
    (extract : OracleOutcome (List SnippetInput)) (e s : OracleOutcome String) :
    StoreInv (handleUploadsSnippets st extract e s).results := by
  cases extract with
  | failure msg =>
      simp only [handleUploadsSnippets, finishProcessing_results, handleError_results,
        startProcessing, handleReset]
      intro it hit
      simp at hit
  | success inputs =>
      simp only [handleUploadsSnippets]
      have hinv := storeInv_runSnippetInputs (startProcessing st).tokens inputs 0
        (startProcessing st).tokens [] [] (by intro it hit; simp at hit)
      rcases hr : runSnippetInputs (startProcessing st).tokens inputs 0
        (startProcessing st).tokens [] [] with ⟨tokens', results', finals', err⟩
      rw [hr] at hinv
      cases err with
      | none => simpa only [finishProcessing_results] using hinv
      | some msg => simpa only [finishProcessing_results, handleError_results] using hinv

theorem storeInv_handleUploadUrl (st : ToolState) (fetch : OracleOutcome Image)
    (analysis : OracleOutcome SnippetAnalysis) (e s : OracleOutcome String) :
    StoreInv (handleUploadUrl st fetch analysis e s).results := by
  have hempty : StoreInv ([] : List ProcessedItem) := by intro it hit; simp at hit
  simp only [handleUploadUrl]
  by_cases hg : (startProcessing st).tokens < TOKENS_PER_JOB
  · rw [if_pos hg]
    simpa only [finishProcessing_results, handleError_results, startProcessing, handleReset]
      using hempty
  · rw [if_neg hg]
    cases fetch with
    | failure msg =>
        simpa only [finishProcessing_results, handleError_results, startProcessing, handleReset]
          using hempty
    | success img =>
        cases analysis with
        | failure msg =>
            simp only [processAndAddItems]
            simpa only [finishProcessing_results, handleError_results, startProcessing, handleReset]
              using hempty
        | success item =>
            simp only [processAndAddItems, finishProcessing_results]
            intro it hit
            simp only [startProcessing, handleReset, List.nil_append, List.mem_singleton] at hit
            subst hit
            rfl

theorem storeInv_handleItemChange (results : List ProcessedItem) (itemId : String)
    (f : EditField) (v : String) (h : StoreInv results) :
    StoreInv (handleItemChange results itemId f v) := by
  apply storeInv_map _ h
  intro it hinv
  by_cases hid : it.id == itemId
  · simp only [hid, if_true]
    cases f <;> rfl
  · simpa [hid] using hinv

theorem storeInv_handleCancelEdit (results : List ProcessedItem) (itemId : String)
    (h : StoreInv results) : StoreInv (handleCancelEdit results itemId) := by
  rw [handleCancelEdit_eq_map]
  apply storeInv_map _ h
  intro it hinv
  simp only [cancelStep]
  split
  · cases hos : it.originalState with
    | some os => rfl
    | none => simpa [hos] using hinv
  · exact hinv

theorem storeInv_handleSaveItemStart (results : List ProcessedItem) (itemId : String)
    (h : StoreInv results) : StoreInv (handleSaveItemStart results itemId) := by
  apply storeInv_map _ h
  intro it hinv
  by_cases hid : it.id == itemId
  · simpa [hid] using hinv
  · simpa [hid] using hinv

theorem storeInv_handleSaveItemFinish (results : List ProcessedItem) (itemId : String)
    (h : StoreInv results) : StoreInv (handleSaveItemFinish results itemId) := by
  apply storeInv_map _ h
  intro it hinv
  by_cases hid : it.id == itemId
  · simp [hid]
  · simpa [hid] using hinv

theorem storeInv_handleRegenerate (st : ToolState) (itemId : String)
    (a : OracleOutcome SnippetAnalysis) (e : OracleOutcome String)
    (h : StoreInv st.results) : StoreInv (handleRegenerate st itemId a e).1.results := by
  cases hf : st.results.find? (fun r => r.id == itemId) with
  | none => simp only [handleRegenerate, hf]; exact h
  | some item =>
      by_cases hg : st.tokens < TOKENS_PER_JOB
      · simp only [handleRegenerate, hf, if_pos hg, addToast]
        exact h
      · cases hri : regenImage item with
        | error msg =>
            simp only [handleRegenerate, hf, if_neg hg, hri, handleError, addToast, List.map_map]
            intro it hit
            obtain ⟨r, hr, rfl⟩ := List.mem_map.1 hit
            by_cases hid : r.id == itemId
            · simp only [Function.comp, hid, if_true]
              simpa using h r hr
            · simp only [Function.comp, hid, if_neg, Bool.false_eq_true, not_false_iff, ite_false]
              exact h r hr
        | ok img =>
            cases a with
            | failure msg =>
                simp only [handleRegenerate, hf, if_neg hg, hri, handleError, addToast,
                  List.map_map]
                intro it hit
                obtain ⟨r, hr, rfl⟩ := List.mem_map.1 hit
                by_cases hid : r.id == itemId
                · simp only [Function.comp, hid, if_true]
                  simpa using h r hr
                · simp only [Function.comp, hid, if_neg, Bool.false_eq_true, not_false_iff,
                    ite_false]
                  exact h r hr
            | success an =>
                simp only [handleRegenerate, hf, if_neg hg, hri, addToast, List.map_map]
                split
                · intro it hit
                  obtain ⟨r, hr, rfl⟩ := List.mem_map.1 hit
                  by_cases hid : r.id == itemId
                  · simp [Function.comp, hid, setRegenFields]
                  · simpa [Function.comp, hid] using h r hr
                · intro it hit
                  obtain ⟨r, hr, rfl⟩ := List.mem_map.1 hit
                  by_cases hid : r.id == itemId
                  · simp [Function.comp, hid, setRegenFields]
                  · simpa [Function.comp, hid] using h r hr


/-- C5: in every reachable state of the result store, for every item,
`originalState` is present if and only if `isEditing` is true.  Every
operation on items preserves the biconditional: field edits, cancel,
both save phases, regeneration on all its paths, and the runs that
create items (whose top-level forms establish it outright from the empty
store). -/
theorem edit_state_invariant :
    (∀ (results : List ProcessedItem) (itemId : String) (f : EditField) (v : String),
      StoreInv results → StoreInv (handleItemChange results itemId f v)) ∧
    (∀ (results : List ProcessedItem) (itemId : String),
      StoreInv results → StoreInv (handleCancelEdit results itemId)) ∧
    (∀ (results : List ProcessedItem) (itemId : String),
      StoreInv results → StoreInv (handleSaveItemStart results itemId)) ∧
    (∀ (results : List ProcessedItem) (itemId : String),
      StoreInv results → StoreInv (handleSaveItemFinish results itemId)) ∧
    (∀ (st : ToolState) (itemId : String) (a : OracleOutcome SnippetAnalysis)
      (e : OracleOutcome String),
      StoreInv st.results → StoreInv (handleRegenerate st itemId a e).1.results) ∧
    (∀ (u : Int) (pages : List PageInput) (i : Nat) (t : Int) (res fin : List ProcessedItem),
      StoreInv res → StoreInv (runPdfPages u pages i t res fin).2.1) ∧
    (∀ (u : Int) (inputs : List SnippetInput) (i : Nat) (t : Int)
      (res fin : List ProcessedItem),
      StoreInv res → StoreInv (runSnippetInputs u inputs i t res fin).2.1) ∧
    (∀ (st : ToolState) (render : OracleOutcome (List PageInput)) (e s : OracleOutcome String),
      StoreInv (handleUploadsPdf st render e s).results) ∧
    (∀ (st : ToolState) (extract : OracleOutcome (List SnippetInput))
      (e s : OracleOutcome String),
      StoreInv (handleUploadsSnippets st extract e s).results) ∧
    (∀ (st : ToolState) (fetch : OracleOutcome Image) (a : OracleOutcome SnippetAnalysis)
      (e s : OracleOutcome String),
      StoreInv (handleUploadUrl st fetch a e s).results) :=
  ⟨storeInv_handleItemChange, storeInv_handleCancelEdit, storeInv_handleSaveItemStart,
    storeInv_handleSaveItemFinish, storeInv_handleRegenerate, storeInv_runPdfPages,
    storeInv_runSnippetInputs, storeInv_handleUploadsPdf, storeInv_handleUploadsSnippets,
    storeInv_handleUploadUrl⟩

/-- Witness for `edit_state_invariant`: the invariant holds of the
one-item store and survives an edit of it. -/
theorem edit_state_invariant_witness :
    StoreInv [demoItem] ∧ StoreInv (handleItemChange [demoItem] "i1" EditField.altText "x") :=
  ⟨by intro it hit; simp only [List.mem_singleton] at hit; subst hit; rfl,
    edit_state_invariant.1 [demoItem] "i1" EditField.altText "x"
      (by intro it hit; simp only [List.mem_singleton] at hit; subst hit; rfl)⟩

/-! ## Stability and ordering of the store -/

def PageLE (a b : ProcessedItem) : Prop := a.pageNumber ≤ b.pageNumber

instance : DecidableRel PageLE := fun a b => Int.decLe a.pageNumber b.pageNumber

def arrivalFold (arrivals : List ProcessedItem) : List ProcessedItem :=
  arrivals.foldl appendSorted []

theorem pairwise_insertByPage {x : ProcessedItem} :
    ∀ {l : List ProcessedItem}, l.Pairwise PageLE → (insertByPage x l).Pairwise PageLE := by
  intro l
  induction l with
  | nil => intro _; simp [insertByPage, List.pairwise_singleton]
  | cons y ys ih =>
      intro h
      rw [List.pairwise_cons] at h
      obtain ⟨hy, hys⟩ := h
      simp only [insertByPage]
      split
      · rename_i hyx
        rw [List.pairwise_cons]
        refine ⟨?_, ih hys⟩
        intro b hb
        rcases mem_insertByPage hb with rfl | hb
        · exact hyx
        · exact hy b hb
      · rename_i hyx
        rw [List.pairwise_cons]
        constructor
        · intro b hb
          rcases List.mem_cons.1 hb with rfl | hb
          · exact le_of_lt (lt_of_not_le hyx)
          · exact le_trans (le_of_lt (lt_of_not_le hyx)) (hy b hb)
        · rw [List.pairwise_cons]
          exact ⟨hy, hys⟩

theorem insertByPage_filter (p : Int) {x : ProcessedItem} :
    ∀ {l : List ProcessedItem}, l.Pairwise PageLE →
      (insertByPage x l).filter (fun it => it.pageNumber == p)
        = l.filter (fun it => it.pageNumber == p)
          ++ (if x.pageNumber == p then [x] else []) := by
  intro l
  induction l with
  | nil =>
      intro _
      cases hxp : x.pageNumber == p <;>
        simp [insertByPage, List.filter_singleton, hxp]
  | cons y ys ih =>
      intro h
      rw [List.pairwise_cons] at h
      obtain ⟨hy, hys⟩ := h
      simp only [insertByPage]
      split
      · rename_i hyx
        rw [List.filter_cons, List.filter_cons]
        by_cases hyp : y.pageNumber == p
        · simp only [hyp, if_true, ih hys, List.cons_append]
        · simp only [hyp, Bool.false_eq_true, if_false, ih hys]
      · rename_i hyx
        by_cases hxp : x.pageNumber == p
        · have hxp' : x.pageNumber = p := by simpa using hxp
          have hempty : (y :: ys).filter (fun it => it.pageNumber == p) = [] := by
            apply List.filter_eq_nil_iff.2
            intro b hb
            have hxb : x.pageNumber < b.pageNumber := by
              rcases List.mem_cons.1 hb with rfl | hb
              · exact lt_of_not_le hyx
              · exact lt_of_lt_of_le (lt_of_not_le hyx) (hy b hb)
            simp only [beq_iff_eq]
            omega
          rw [List.filter_cons, hempty]
          simp [hxp, hxp']
        · rw [List.filter_cons]
          simp [hxp]

theorem insertByPage_at_end {x : ProcessedItem} :
    ∀ {l : List ProcessedItem}, (∀ a ∈ l, PageLE a x) → insertByPage x l = l ++ [x] := by
  intro l
  induction l with
  | nil => intro _; rfl
  | cons y ys ih =>
      intro h
      simp only [insertByPage]
      rw [if_pos (show y.pageNumber ≤ x.pageNumber from h y (by simp))]
      rw [ih (fun a ha => h a (by simp [ha]))]
      rfl

theorem sortByPage_append_one (l : List ProcessedItem) (x : ProcessedItem) :
    sortByPage (l ++ [x]) = insertByPage x (sortByPage l) := by
  simp only [sortByPage, List.foldl_append, List.foldl_cons, List.foldl_nil]

theorem sortByPage_of_pairwise :
    ∀ {l : List ProcessedItem}, l.Pairwise PageLE → sortByPage l = l := by
  have aux : ∀ (l acc : List ProcessedItem), acc.Pairwise PageLE → l.Pairwise PageLE →
      (∀ a ∈ acc, ∀ b ∈ l, PageLE a b) →
      l.foldl (fun acc x => insertByPage x acc) acc = acc ++ l := by
    intro l
    induction l with
    | nil => intro acc _ _ _; simp
    | cons c cs ih =>
        intro acc hacc hl hcross
        rw [List.pairwise_cons] at hl
        obtain ⟨hc, hcs⟩ := hl
        simp only [List.foldl_cons]
        rw [insertByPage_at_end (fun a ha => hcross a ha c (by simp))]
        have hacc' : (acc ++ [c]).Pairwise PageLE := by
          rw [List.pairwise_append]
          refine ⟨hacc, List.pairwise_singleton _ _, ?_⟩
          intro a ha d hd
          simp only [List.mem_singleton] at hd
          subst hd
          exact hcross a ha _ (List.mem_cons_self _ _)
        have hcross' : ∀ a ∈ acc ++ [c], ∀ d ∈ cs, PageLE a d := by
          intro a ha d hd
          rcases List.mem_append.1 ha with ha | ha
          · exact hcross a ha d (by simp [hd])
          · simp only [List.mem_singleton] at ha
            subst ha
            exact hc d hd
        rw [ih (acc ++ [c]) hacc' hcs hcross']
        simp
  intro l h
  have := aux l [] List.Pairwise.nil h (by intro a ha; simp at ha)
  simpa [sortByPage] using this

theorem arrivalFold_append_one (l : List ProcessedItem) (x : ProcessedItem) :
    arrivalFold (l ++ [x]) = sortByPage (arrivalFold l ++ [x]) := by
  simp only [arrivalFold, List.foldl_append, List.foldl_cons, List.foldl_nil, appendSorted]

theorem arrivalFold_sorted_and_stable (arrivals : List ProcessedItem) :
    (arrivalFold arrivals).Pairwise PageLE ∧
    ∀ p : Int, (arrivalFold arrivals).filter (fun it => it.pageNumber == p)
      = arrivals.filter (fun it => it.pageNumber == p) := by
  induction arrivals using List.reverseRecOn with
  | nil => exact ⟨List.Pairwise.nil, fun p => rfl⟩
  | append_singleton l x ih =>
      obtain ⟨ihs, ihf⟩ := ih
      have hstep : arrivalFold (l ++ [x]) = insertByPage x (arrivalFold l) := by
        rw [arrivalFold_append_one, sortByPage_append_one, sortByPage_of_pairwise ihs]
      constructor
      · rw [hstep]
        exact pairwise_insertByPage ihs
      · intro p
        rw [hstep, insertByPage_filter p ihs, ihf p, List.filter_append]
        congr 1
        cases hxp : x.pageNumber == p <;> simp [List.filter_singleton, hxp]


/-- An item of a later page, used to exercise out-of-order arrival. -/
def demoItemPage3 : ProcessedItem := { demoItem with id := "p3-0", pageNumber := 3 }

/-- C8: after every append of the PDF path (which re-sorts the whole
store with the stable `Array.prototype.sort` by `pageNumber`), the store
is sorted by `pageNumber` ascending and, for every page, the items of
that page appear in arrival order — even when items of a later page are
appended before items of an earlier page (first conjunct, over every
prefix of the arrival sequence).  The plain appends of
`processAndAddItems` preserve sortedness as well, because there every
appended item's `pageNumber` is at least those already present (second
conjunct). -/
theorem append_sorted_stable :
    (∀ (arrivals : List ProcessedItem) (n : Nat),
      (arrivalFold (arrivals.take n)).Pairwise PageLE ∧
      ∀ p : Int, (arrivalFold (arrivals.take n)).filter (fun it => it.pageNumber == p)
        = (arrivals.take n).filter (fun it => it.pageNumber == p)) ∧
    (∀ (l : List ProcessedItem) (x : ProcessedItem),
      l.Pairwise PageLE → (∀ it ∈ l, PageLE it x) → (l ++ [x]).Pairwise PageLE) :=
  ⟨fun arrivals n => arrivalFold_sorted_and_stable (arrivals.take n),
    fun l x hl hx => by
      rw [List.pairwise_append]
      refine ⟨hl, List.pairwise_singleton _ _, ?_⟩
      intro a ha b hb
      simp only [List.mem_singleton] at hb
      subst hb
      exact hx a ha⟩

/-- Witness for `append_sorted_stable`: the page-3 item arrives before
the page-1 item, yet every prefix of the store is sorted with arrival
order kept within each page; and a plain append of the later-page item
to the sorted single-item store stays sorted. -/
theorem append_sorted_stable_witness :
    ((arrivalFold ([demoItemPage3, demoItem].take 2)).Pairwise PageLE ∧
      (arrivalFold ([demoItemPage3, demoItem].take 2)).filter (fun it => it.pageNumber == 1)
        = ([demoItemPage3, demoItem].take 2).filter (fun it => it.pageNumber == 1)) ∧
    ([demoItem].Pairwise PageLE ∧ (∀ it ∈ [demoItem], PageLE it demoItemPage3) ∧
      ([demoItem] ++ [demoItemPage3]).Pairwise PageLE) :=
  ⟨⟨(append_sorted_stable.1 [demoItemPage3, demoItem] 2).1,
    (append_sorted_stable.1 [demoItemPage3, demoItem] 2).2 1⟩,
    ⟨by decide, by decide,
      append_sorted_stable.2 [demoItem] demoItemPage3 (by decide) (by decide)⟩⟩

/-! ## The stale token-balance accounting of a multi-call run -/

/-- A successful 2-page PDF run input (each page yields no assets). -/
def demoPages2 : List PageInput := [⟨demoImage, .success []⟩, ⟨demoImage, .success []⟩]

/-- A successful 3-page PDF run input. -/
def demoPages3 : List PageInput :=
  [⟨demoImage, .success []⟩, ⟨demoImage, .success []⟩, ⟨demoImage, .success []⟩]

/-- A successful 2-snippet run input. -/
def demoSnippets2 : List SnippetInput :=
  [⟨demoImage, .success demoAnalysis⟩, ⟨demoImage, .success demoAnalysis⟩]

/-- C1, evaluated at failing inputs.  Because `handleUploads` and
`decrementTokens` close over the `user` captured when the run started,
every in-run balance check reads the initial balance and every charge
stores `max 0 (initial - 10)`:
a 2-page run of successful analyses from 100 tokens ends at 90 — not at
`100 - 10·2 = 80` as the claim's equation demands; a 2-snippet run from
100 likewise ends at 90; and a 3-page run from 15 tokens completes all
three pages without ever aborting (every check sees the stale 15) and
ends at 5, although the claimed accounting would have the balance
exhausted after the first charge. -/
theorem stale_balance_run_evaluation :
    ((runPdfPages 100 demoPages2 0 100 [] []).2.2.2 = none ∧
      (runPdfPages 100 demoPages2 0 100 [] []).1 = 90 ∧
      (runPdfPages 100 demoPages2 0 100 [] []).1
        ≠ 100 - TOKENS_PER_JOB * (demoPages2.length : Int)) ∧
    ((runSnippetInputs 100 demoSnippets2 0 100 [] []).2.2.2 = none ∧
      (runSnippetInputs 100 demoSnippets2 0 100 [] []).1 = 90 ∧
      (runSnippetInputs 100 demoSnippets2 0 100 [] []).1
        ≠ 100 - TOKENS_PER_JOB * (demoSnippets2.length : Int)) ∧
    ((runPdfPages 15 demoPages3 0 15 [] []).2.2.2 = none ∧
      (runPdfPages 15 demoPages3 0 15 [] []).1 = 5) :=
  ⟨⟨by decide, by decide, by decide⟩, ⟨by decide, by decide, by decide⟩,
    ⟨by decide, by decide⟩⟩


end AltText
